import Mathlib

/-!
Shallow embedding of the learn-ifc building-model assembler: the property
set manager, the classification engine, the placement engine and the
opening/fill coordinator, translated from the repository's Python scripts
(`add_fire_ratings.py`, `add_building_fire_info.py`, `add_property_sets.py`,
`create_small_house.py`, `test_ifc_window.py`).
-/

namespace LearnIfc

/-! ### Case-insensitive substring search (Python `"pat" in s.lower()`) -/

/-- Python's `str.lower()` on one character, restricted to the alphabets
the program's names and patterns draw from: an ASCII capital `A`-`Z`
(U+0041-U+005A) or a Latin-1 capital `À`-`Þ` (U+00C0-U+00DE, excluding
the multiplication sign U+00D7) is mapped 32 code points up to its
lowercase form; every other character is unchanged. -/
def pyLower (c : Char) : Char :=
  if 65 ≤ c.toNat ∧ c.toNat ≤ 90 then Char.ofNat (c.toNat + 32)
  else if 192 ≤ c.toNat ∧ c.toNat ≤ 222 ∧ c.toNat ≠ 215 then
    Char.ofNat (c.toNat + 32)
  else c

/-- The characters of a string, each lowered (Python `s.lower()`). -/
def lowerChars (s : String) : List Char := s.data.map pyLower

/-- `leadsWith pat l` is true when `pat` is an initial segment of `l`. -/
def leadsWith : List Char → List Char → Bool
  | [], _ => true
  | _ :: _, [] => false
  | p :: ps, c :: cs => p == c && leadsWith ps cs

/-- `hasSub pat l` is true when `pat` occurs contiguously in `l`
(Python's `pat in l`). -/
def hasSub (pat : List Char) : List Char → Bool
  | [] => pat.isEmpty
  | c :: cs => leadsWith pat (c :: cs) || hasSub pat cs

/-! ### Property sets (`IfcPropertySet`, `IfcPropertySingleValue`)

An entity's property state is the list of property sets reachable through
its `IsDefinedBy` relations; one `IfcRelDefinesByProperties` relation is
created per attached set, so the list also counts the relations. -/

/-- A property's typed `NominalValue`: `IfcText`, `IfcInteger`, `IfcReal`
or `IfcBoolean` (`add_building_fire_info.py` lines 229-234,
`add_property_sets.py` lines 46-58). -/
inductive PValue where
  | text : String → PValue
  | int : Int → PValue
  | real : ℚ → PValue
  | bool : Bool → PValue
deriving DecidableEq

/-- An `IfcPropertySingleValue`: a name and a typed value. -/
structure IfcProperty where
  name : String
  value : PValue
deriving DecidableEq

/-- An `IfcPropertySet`: a name and an ordered `HasProperties` collection. -/
structure IfcPropertySet where
  name : String
  hasProperties : List IfcProperty
deriving DecidableEq

/-- The first property set of the given name among an entity's
`IsDefinedBy` relations: the scan loop of
`add_fire_ratings.py` lines 301-306 and `add_building_fire_info.py`
lines 199-206. -/
def findPset (setName : String) : List IfcPropertySet → Option IfcPropertySet
  | [] => none
  | ps :: rest => if ps.name == setName then some ps else findPset setName rest

/-- Append a property to the first set of the given name, leaving every
other set unchanged (the Python code mutates the set object the scan
found: `pset.HasProperties = existing_properties + [prop]`). -/
def appendToFirst (setName : String) (p : IfcProperty) :
    List IfcPropertySet → List IfcPropertySet
  | [] => []
  | ps :: rest =>
    if ps.name == setName then
      { ps with hasProperties := ps.hasProperties ++ [p] } :: rest
    else ps :: appendToFirst setName p rest

/-- The find-or-create-then-append body shared by
`FireRatingManager.add_fire_rating_property` (`add_fire_ratings.py`
lines 299-339) and `BuildingFireSafetyManager.add_fire_safety_property`
(`add_building_fire_info.py` lines 198-247): scan `IsDefinedBy` for a set
named `setName`; if none is found create a new set and one new relation
attaching it; then append the property to the set's collection. -/
def ensureProperty (st : List IfcPropertySet) (setName : String)
    (p : IfcProperty) : List IfcPropertySet :=
  match findPset setName st with
  | some _ => appendToFirst setName p st
  | none => st ++ [⟨setName, [p]⟩]

/-- How many property sets of the given name are attached to the entity
(one relation per set, so this also counts the relations). -/
def countNamed (setName : String) (st : List IfcPropertySet) : Nat :=
  st.countP (fun ps => ps.name == setName)

/-- The property collection of the first set of the given name
(empty when there is none). -/
def propsNamed (setName : String) (st : List IfcPropertySet) :
    List IfcProperty :=
  match findPset setName st with
  | some ps => ps.hasProperties
  | none => []

/-- The unconditional attachment done per wall and per window by
`add_property_sets_to_model` (`add_property_sets.py` lines 33-103): a fresh
`IfcPropertySet` and a fresh `IfcRelDefinesByProperties` are created with
no scan for an existing set of the same name. -/
def attachPset (st : List IfcPropertySet) (setName : String)
    (props : List IfcProperty) : List IfcPropertySet :=
  st ++ [⟨setName, props⟩]

/-! ### Classification engine -/

/-- The spatial node kinds a containment relation can target. -/
inductive SpatialKind where
  | building
  | storey
  | site
deriving DecidableEq

/-- What `ModelAnalyzer.classify_wall` inspects: the targets of the wall's
`ContainedInStructure` relations and the property sets of its `IsDefinedBy`
relations. -/
structure WallContext where
  containedIn : List SpatialKind
  isDefinedBy : List IfcPropertySet
deriving DecidableEq

/-- `ModelAnalyzer.classify_wall` (`add_fire_ratings.py` lines 211-233):
if any containment target is an `IfcBuilding`, the wall is external;
otherwise, if any attached property set has a NAME containing `"load"`
(case-insensitive: the code tests `"load" in prop_def.Name.lower()` on the
`RelatingPropertyDefinition`, i.e. on the set itself), it is load-bearing;
otherwise internal. -/
def classify_wall (w : WallContext) : String :=
  if w.containedIn.any (fun t => t == SpatialKind.building) then "external_wall"
  else if w.isDefinedBy.any (fun ps => hasSub "load".data (lowerChars ps.name)) then
    "loadbearing_wall"
  else "internal_wall"

/-- Modelled from the spec's words for comparison with `classify_wall`:
"else if any attached PropertySet has a property whose name contains
'load' (case-insensitive)" — the `"load"` test applied to the names of the
properties inside each set rather than to the set's own name. -/
def classify_wall_specWords (w : WallContext) : String :=
  if w.containedIn.any (fun t => t == SpatialKind.building) then "external_wall"
  else if w.isDefinedBy.any
      (fun ps => ps.hasProperties.any (fun p => hasSub "load".data (lowerChars p.name))) then
    "loadbearing_wall"
  else "internal_wall"

/-- A wall contained in a storey carrying `Pset_WallCommon` with a
`LoadBearing` property, as `add_property_sets.py` lines 37-72 attaches to
every wall. -/
def loadBearingWall : WallContext :=
  { containedIn := [SpatialKind.storey]
  , isDefinedBy :=
      [⟨"Pset_WallCommon",
        [⟨"IsExternal", PValue.bool true⟩, ⟨"LoadBearing", PValue.bool false⟩]⟩] }

/-- `BuildingFireSafetyManager.classify_storey_type`
(`add_building_fire_info.py` lines 255-275). The storey's name is lowered;
a missing (`None`) elevation is read as `0.0`
(`float(storey.Elevation) if storey.Elevation else 0.0`, which also sends
an explicit `0.0` to `0.0`). The French ground-floor literal in the source
file is double-encoded UTF-8: its characters are, byte for byte,
`rez-de-chauss` U+00C3 U+00A9 `e` (the mojibake of an `é`), embedded here
exactly; since lowering never yields the capital U+00C3, that disjunct can
never match a lowered name — in the program and in this model alike. -/
def classify_storey_type (name : String) (elevation : Option ℚ) : String :=
  let nm := lowerChars name
  let elev := elevation.getD 0
  if elev < 0 then "basement"
  else if elev = 0 ∨ hasSub "ground".data nm ∨ hasSub "erdgeschoss".data nm ∨
      hasSub "rez-de-chaussÃ©e".data nm then "ground"
  else if hasSub "roof".data nm ∨ hasSub "dach".data nm ∨ hasSub "toit".data nm then
    "roof"
  else "upper"

/-! ### Placement engine (`create_wall_with_proper_joins`) -/

/-- The frame `create_wall_with_proper_joins` computes for a wall
(`create_small_house.py` lines 16-38). The rotation angle (the source
stores `angle` in radians, always a multiple of `pi`) is kept exactly as
its coefficient of `π`; the length (the source stores
`math.sqrt(dx**2 + dy**2)`) is kept exactly as its square. -/
structure WallFrame where
  centerX : ℚ
  centerY : ℚ
  anglePiCoeff : ℚ
  lengthSq : ℚ
deriving DecidableEq

/-- The geometry computed by `create_wall_with_proper_joins`
(`create_small_house.py` lines 16-26):
`wall_length = sqrt((ex-sx)^2 + (ey-sy)^2)`; center = midpoint;
`angle = pi/2 if ey > sy else -pi/2` when `sx == ex`, else
`0 if ex > sx else pi`. There is no degeneracy check. -/
def create_wall_frame (sx sy ex ey : ℚ) : WallFrame :=
  { centerX := (sx + ex) / 2
  , centerY := (sy + ey) / 2
  , anglePiCoeff :=
      if sx = ex then (if sy < ey then 1 / 2 else -(1 / 2))
      else (if sx < ex then 0 else 1)
  , lengthSq := (ex - sx) ^ 2 + (ey - sy) ^ 2 }

/-! ### Opening/fill coordinator (`create_small_house.py`) -/

/-- The kinds of element that can appear as a host or penetrator. -/
inductive ElemKind where
  | wall
  | slab
  | window
  | door
deriving DecidableEq

/-- A penetrating element's plan width and extrusion height
(`window_width`/`window_height`, `door_width`/`door_height`). -/
structure PenetratorSize where
  width : ℚ
  height : ℚ
deriving DecidableEq

/-- An `IfcOpeningElement`'s box: plan profile (width × depth) and
extrusion height. -/
structure OpeningElem where
  planWidth : ℚ
  planDepth : ℚ
  extrusionHeight : ℚ
deriving DecidableEq

/-- The opening profile and extrusion built for a window
(`create_small_house.py` lines 349-353) and for the door (lines 428-431):
`opening_width = width + 0.02`, `opening_depth = wall_thickness + 0.05`,
extrusion depth `height + 0.01`. -/
def mkOpening (pen : PenetratorSize) (wallThickness : ℚ) : OpeningElem :=
  { planWidth := pen.width + 0.02
  , planDepth := wallThickness + 0.05
  , extrusionHeight := pen.height + 0.01 }

/-- The entities and relations the model accumulates while the house
script runs: openings (with their boxes), `IfcRelVoidsElement` pairs
(host element id, opening id) and `IfcRelFillsElement` pairs
(opening id, filling element id). `nextId` numbers the openings as they
are created. -/
structure ModelState where
  openings : List (Nat × OpeningElem)
  voids : List (Nat × Nat)
  fills : List (Nat × Nat)
  nextId : Nat
deriving DecidableEq

/-- One opening-cut step of `create_small_house`
(lines 349-362 for a window, 428-440 for the door): create one fresh
`IfcOpeningElement` from the penetrator's size and the host wall's
thickness, one `IfcRelVoidsElement(host, opening)` and one
`IfcRelFillsElement(opening, penetrator)`. The host's kind and the sign of
the slot size are never inspected: creation is unconditional. -/
def cut_opening (st : ModelState) (_hostKind : ElemKind) (host penetrator : Nat)
    (penSize : PenetratorSize) (hostThickness : ℚ) : ModelState :=
  { openings := st.openings ++ [(st.nextId, mkOpening penSize hostThickness)]
  , voids := st.voids ++ [(host, st.nextId)]
  , fills := st.fills ++ [(st.nextId, penetrator)]
  , nextId := st.nextId + 1 }

/-- One window/door configuration of the house script: the ids of the host
wall and of the penetrating element, the penetrator's size and the host
wall's thickness. -/
structure PenConfig where
  host : Nat
  penetrator : Nat
  size : PenetratorSize
  hostThickness : ℚ
deriving DecidableEq

/-- The window loop (`create_small_house.py` lines 286-375) followed by the
door block (lines 379-440): one `cut_opening` step per configuration, in
order. All hosts in the script are walls. -/
def run_cut_openings (st : ModelState) : List PenConfig → ModelState
  | [] => st
  | c :: rest =>
    run_cut_openings
      (cut_opening st ElemKind.wall c.host c.penetrator c.size c.hostThickness) rest

/-- The voids and fills relations the loop creates, listed directly:
configuration `j` (zero-based, ids starting at `k`) yields
`Voids (host j, k + j)` and `Fills (k + j, penetrator j)`. -/
def openingRels : Nat → List PenConfig → List (Nat × Nat) × List (Nat × Nat)
  | _, [] => ([], [])
  | k, c :: rest =>
    let r := openingRels (k + 1) rest
    ((c.host, k) :: r.1, (k, c.penetrator) :: r.2)

/-! ### Lemmas on the property set manager -/

theorem findPset_eq_none_iff (s : String) (st : List IfcPropertySet) :
    findPset s st = none ↔ ∀ ps ∈ st, ps.name ≠ s := by
  induction st with
  | nil => simp [findPset]
  | cons a rest ih =>
    by_cases h : a.name = s <;> simp [findPset, beq_iff_eq, h, ih]

theorem countNamed_eq_zero_iff (s : String) (st : List IfcPropertySet) :
    countNamed s st = 0 ↔ findPset s st = none := by
  induction st with
  | nil => simp [countNamed, findPset]
  | cons a rest ih =>
    by_cases h : a.name = s
    · simp [countNamed, findPset, List.countP_cons, beq_iff_eq, h]
    · simp [countNamed, findPset, List.countP_cons, beq_iff_eq, h] at ih ⊢
      exact ih

theorem countNamed_append (s : String) (l1 l2 : List IfcPropertySet) :
    countNamed s (l1 ++ l2) = countNamed s l1 + countNamed s l2 :=
  List.countP_append _ _ _

theorem findPset_name (s : String) (st : List IfcPropertySet)
    (ps : IfcPropertySet) (h : findPset s st = some ps) : ps.name = s := by
  induction st with
  | nil => simp [findPset] at h
  | cons a rest ih =>
    by_cases ha : a.name = s
    · simp [findPset, beq_iff_eq, ha] at h
      rw [← h]; exact ha
    · simp [findPset, beq_iff_eq, ha] at h
      exact ih h

theorem one_le_countNamed (s : String) (st : List IfcPropertySet)
    (ps : IfcPropertySet) (h : findPset s st = some ps) :
    1 ≤ countNamed s st := by
  induction st with
  | nil => simp [findPset] at h
  | cons a rest ih =>
    by_cases ha : a.name = s
    · simp [countNamed, List.countP_cons, beq_iff_eq, ha]
    · simp [findPset, beq_iff_eq, ha] at h
      have := ih h
      simp [countNamed, List.countP_cons, beq_iff_eq, ha] at this ⊢
      exact this

theorem findPset_append_of_none {s : String} {l1 : List IfcPropertySet}
    (h : findPset s l1 = none) (l2 : List IfcPropertySet) :
    findPset s (l1 ++ l2) = findPset s l2 := by
  induction l1 with
  | nil => simp
  | cons a rest ih =>
    by_cases ha : a.name = s <;> simp [findPset, beq_iff_eq, ha] at h ⊢
    exact ih h

theorem appendToFirst_append_of_none {s : String} {l1 : List IfcPropertySet}
    (h : findPset s l1 = none) (p : IfcProperty) (l2 : List IfcPropertySet) :
    appendToFirst s p (l1 ++ l2) = l1 ++ appendToFirst s p l2 := by
  induction l1 with
  | nil => simp
  | cons a rest ih =>
    by_cases ha : a.name = s <;> simp [findPset, beq_iff_eq, ha] at h ⊢
    · simp [appendToFirst, beq_iff_eq, ha]
      exact ih h

theorem appendToFirst_names (s : String) (p : IfcProperty)
    (st : List IfcPropertySet) :
    (appendToFirst s p st).map (fun ps => ps.name)
      = st.map (fun ps => ps.name) := by
  induction st with
  | nil => simp [appendToFirst]
  | cons a rest ih =>
    by_cases ha : a.name = s <;> simp [appendToFirst, beq_iff_eq, ha, ih]

theorem countNamed_appendToFirst (s t : String) (p : IfcProperty)
    (st : List IfcPropertySet) :
    countNamed t (appendToFirst s p st) = countNamed t st := by
  induction st with
  | nil => simp [appendToFirst]
  | cons a rest ih =>
    by_cases ha : a.name = s
    · simp [appendToFirst, countNamed, List.countP_cons, beq_iff_eq, ha]
    · simp [appendToFirst, countNamed, List.countP_cons, beq_iff_eq, ha] at ih ⊢
      exact ih

theorem findPset_appendToFirst (s : String) (p : IfcProperty)
    (st : List IfcPropertySet) :
    findPset s (appendToFirst s p st) =
      (findPset s st).map
        (fun ps => { ps with hasProperties := ps.hasProperties ++ [p] }) := by
  induction st with
  | nil => simp [appendToFirst, findPset]
  | cons a rest ih =>
    by_cases ha : a.name = s <;> simp [appendToFirst, findPset, beq_iff_eq, ha, ih]

/-- C1: calling `ensureProperty` twice with the same `(entity, setName)`
pair but two different property names, on an entity satisfying the data
model's at-most-one-set-per-name invariant, leaves exactly one PropertySet
relation of that name on the entity (the second call reuses the set found
by scanning the existing relations), and the set's property collection
ends with both properties in call order. -/
theorem ensureProperty_twice (st : List IfcPropertySet) (s : String)
    (p1 p2 : IfcProperty) (h : countNamed s st ≤ 1) :
    countNamed s (ensureProperty (ensureProperty st s p1) s p2) = 1 ∧
    propsNamed s (ensureProperty (ensureProperty st s p1) s p2)
      = propsNamed s st ++ [p1, p2] := by
  cases hf : findPset s st with
  | none =>
    have h0 : countNamed s st = 0 := (countNamed_eq_zero_iff s st).2 hf
    have e1 : ensureProperty st s p1 = st ++ [⟨s, [p1]⟩] := by
      simp [ensureProperty, hf]
    have hf1 : findPset s (st ++ [⟨s, [p1]⟩]) = some ⟨s, [p1]⟩ := by
      rw [findPset_append_of_none hf]; simp [findPset]
    have e2 : ensureProperty (st ++ [⟨s, [p1]⟩]) s p2 = st ++ [⟨s, [p1, p2]⟩] := by
      rw [ensureProperty, hf1]
      rw [appendToFirst_append_of_none hf]
      simp [appendToFirst]
    rw [e1, e2]
    constructor
    · rw [countNamed_append, h0]
      simp [countNamed]
    · rw [propsNamed, findPset_append_of_none hf, propsNamed, hf]
      simp [findPset]
  | some ps =>
    have h1 : countNamed s st = 1 :=
      Nat.le_antisymm h (one_le_countNamed s st ps hf)
    have e1 : ensureProperty st s p1 = appendToFirst s p1 st := by
      simp [ensureProperty, hf]
    have hf1 : findPset s (appendToFirst s p1 st)
        = some { ps with hasProperties := ps.hasProperties ++ [p1] } := by
      rw [findPset_appendToFirst, hf]; rfl
    have e2 : ensureProperty (appendToFirst s p1 st) s p2
        = appendToFirst s p2 (appendToFirst s p1 st) := by
      simp [ensureProperty, hf1]
    rw [e1, e2]
    constructor
    · rw [countNamed_appendToFirst, countNamed_appendToFirst, h1]
    · rw [propsNamed, findPset_appendToFirst, hf1]
      rw [propsNamed, hf]
      simp

/-- C1 witness, Scenario D: two `ensureProperty` calls on a fresh wall with
`("Pset_WallCommon", "IsExternal")` then `("Pset_WallCommon", "LoadBearing")`
leave one `Pset_WallCommon` relation holding exactly the two properties in
call order. -/
theorem ensureProperty_twice_witness :
    countNamed "Pset_WallCommon" ([] : List IfcPropertySet) ≤ 1 ∧
    countNamed "Pset_WallCommon"
      (ensureProperty
        (ensureProperty [] "Pset_WallCommon" ⟨"IsExternal", PValue.bool true⟩)
        "Pset_WallCommon" ⟨"LoadBearing", PValue.bool false⟩) = 1 ∧
    propsNamed "Pset_WallCommon"
      (ensureProperty
        (ensureProperty [] "Pset_WallCommon" ⟨"IsExternal", PValue.bool true⟩)
        "Pset_WallCommon" ⟨"LoadBearing", PValue.bool false⟩)
      = [⟨"IsExternal", PValue.bool true⟩, ⟨"LoadBearing", PValue.bool false⟩] := by
  have h := ensureProperty_twice [] "Pset_WallCommon"
    ⟨"IsExternal", PValue.bool true⟩ ⟨"LoadBearing", PValue.bool false⟩
    (by decide)
  exact ⟨by decide, h.1, by simpa using h.2⟩

/-- C9 counterexample: the per-wall body of `add_property_sets_to_model`
attaches a fresh `Pset_WallCommon` with no scan for an existing one, so
running it on a wall that already carries `Pset_WallCommon` (for instance
one produced by an earlier run of the same loop) leaves two PropertySets
of the same name on the entity. -/
theorem attachPset_duplicates :
    countNamed "Pset_WallCommon"
      (attachPset
        (attachPset [] "Pset_WallCommon"
          [⟨"IsExternal", PValue.bool true⟩, ⟨"LoadBearing", PValue.bool false⟩])
        "Pset_WallCommon"
        [⟨"IsExternal", PValue.bool true⟩, ⟨"LoadBearing", PValue.bool false⟩])
      = 2 := by decide

/-- C9 amended: the find-or-create operation `ensureProperty` (the path
used by `add_fire_ratings.py` and `add_building_fire_info.py`) preserves
the at-most-one-PropertySet-per-name invariant; the unconditional
attachment of `add_property_sets.py` does not. -/
theorem ensureProperty_preserves_unique_names (st : List IfcPropertySet)
    (s : String) (p : IfcProperty)
    (h : (st.map (fun ps => ps.name)).Nodup) :
    ((ensureProperty st s p).map (fun ps => ps.name)).Nodup := by
  cases hf : findPset s st with
  | some ps =>
    have e : ensureProperty st s p = appendToFirst s p st := by
      simp [ensureProperty, hf]
    rw [e, appendToFirst_names]
    exact h
  | none =>
    have e : ensureProperty st s p = st ++ [⟨s, [p]⟩] := by
      simp [ensureProperty, hf]
    have hs : ∀ ps ∈ st, ps.name ≠ s := (findPset_eq_none_iff s st).1 hf
    rw [e]
    simp only [List.map_append, List.map_cons, List.map_nil, List.nodup_append]
    refine ⟨h, List.nodup_singleton s, ?_⟩
    intro a ha hb
    simp only [List.mem_map] at ha
    obtain ⟨ps, hps, rfl⟩ := ha
    simp only [List.mem_singleton] at hb
    exact hs ps hps hb

/-- C9 amended witness: starting from a wall carrying only `CPset_Custom`,
an `ensureProperty` call for `Pset_WallCommon` keeps the attached set
names free of duplicates. -/
theorem ensureProperty_preserves_unique_names_witness :
    (([⟨"CPset_Custom", [⟨"Graffitischutz", PValue.bool true⟩]⟩] :
        List IfcPropertySet).map (fun ps => ps.name)).Nodup ∧
    ((ensureProperty [⟨"CPset_Custom", [⟨"Graffitischutz", PValue.bool true⟩]⟩]
        "Pset_WallCommon" ⟨"IsExternal", PValue.bool true⟩).map
      (fun ps => ps.name)).Nodup :=
  ⟨by decide,
    ensureProperty_preserves_unique_names _ _ _ (by decide)⟩

/-- C2 counterexample: a wall contained in a storey whose only attached
set is `Pset_WallCommon` holding a property named `LoadBearing`. The
claim's rule (a PROPERTY name containing "load") picks `loadbearing_wall`,
but `classify_wall` tests the NAME OF THE SET
(`prop_def.Name`, `add_fire_ratings.py` line 229) and returns
`internal_wall`. -/
theorem classify_wall_propName_cex :
    classify_wall loadBearingWall = "internal_wall"
    ∧ classify_wall_specWords loadBearingWall = "loadbearing_wall"
    ∧ loadBearingWall.containedIn.any (fun t => t == SpatialKind.building) = false
    ∧ loadBearingWall.isDefinedBy.any
        (fun ps => ps.hasProperties.any
          (fun p => hasSub "load".data (lowerChars p.name))) = true :=
  ⟨by decide, by decide, by decide, by decide⟩

/-- C2 amended: `classify_wall` evaluates top-to-bottom with first match
winning — Building containment gives `external_wall`; otherwise an
attached PropertySet whose own NAME contains "load" (case-insensitive)
gives `loadbearing_wall`; otherwise `internal_wall`. (The code tests the
set's name, not the names of the properties inside it.) -/
theorem classify_wall_table (w : WallContext) :
    (classify_wall w = "external_wall" ↔ SpatialKind.building ∈ w.containedIn)
    ∧ (classify_wall w = "loadbearing_wall" ↔
        (SpatialKind.building ∉ w.containedIn ∧
          ∃ ps ∈ w.isDefinedBy, hasSub "load".data (lowerChars ps.name) = true))
    ∧ (classify_wall w = "internal_wall" ↔
        (SpatialKind.building ∉ w.containedIn ∧
          ∀ ps ∈ w.isDefinedBy, hasSub "load".data (lowerChars ps.name) = false)) := by
  have hb : w.containedIn.any (fun t => t == SpatialKind.building) = true
      ↔ SpatialKind.building ∈ w.containedIn := by
    simp [List.any_eq_true]
  have hl : w.isDefinedBy.any (fun ps => hasSub "load".data (lowerChars ps.name)) = true
      ↔ ∃ ps ∈ w.isDefinedBy, hasSub "load".data (lowerChars ps.name) = true := by
    simp [List.any_eq_true]
  by_cases h1 : w.containedIn.any (fun t => t == SpatialKind.building)
  · have hm : SpatialKind.building ∈ w.containedIn := hb.1 h1
    have hc : classify_wall w = "external_wall" := by simp [classify_wall, h1]
    rw [hc]
    exact ⟨⟨fun _ => hm, fun _ => rfl⟩,
      ⟨fun hx => absurd hx (by decide), fun hx => absurd hm hx.1⟩,
      ⟨fun hx => absurd hx (by decide), fun hx => absurd hm hx.1⟩⟩
  · have hm : SpatialKind.building ∉ w.containedIn := fun hmem => h1 (hb.2 hmem)
    by_cases h2 : w.isDefinedBy.any (fun ps => hasSub "load".data (lowerChars ps.name))
    · have hc : classify_wall w = "loadbearing_wall" := by
        simp [classify_wall, h1, h2]
      rw [hc]
      refine ⟨⟨fun hx => absurd hx (by decide), fun hmem => absurd hmem hm⟩,
        ⟨fun _ => ⟨hm, hl.1 h2⟩, fun _ => rfl⟩,
        ⟨fun hx => absurd hx (by decide), ?_⟩⟩
      rintro ⟨-, hall⟩
      obtain ⟨ps, hps, ht⟩ := hl.1 h2
      rw [hall ps hps] at ht
      exact Bool.noConfusion ht
    · have hc : classify_wall w = "internal_wall" := by
        simp [classify_wall, h1, h2]
      have hall : ∀ ps ∈ w.isDefinedBy, hasSub "load".data (lowerChars ps.name) = false :=
        fun ps hps => Bool.eq_false_iff.mpr (fun ht => h2 (hl.2 ⟨ps, hps, ht⟩))
      rw [hc]
      exact ⟨⟨fun hx => absurd hx (by decide), fun hmem => absurd hmem hm⟩,
        ⟨fun hx => absurd hx (by decide), fun hx => absurd (hl.2 hx.2) h2⟩,
        ⟨fun _ => ⟨hm, hall⟩, fun _ => rfl⟩⟩

/-- C8: storey classification evaluates top-to-bottom with first match
winning — elevation < 0 gives basement; elevation 0 or a ground-floor
synonym in the name gives ground; a roof synonym gives roof; otherwise
upper. The ground-floor synonyms are the source's literal ones: "ground",
"erdgeschoss", and the dead mojibake "rez-de-chauss" U+00C3 U+00A9 "e",
whose capital U+00C3 survives in no lowered name — so the storey
"Rez-de-chaussée" (live UTF-8, U+00E9) at elevation 2.0 is classified
upper, not ground. Scenario C: any storey at elevation −3.0 is a
basement, and a storey named "Dachgeschoss" at elevation 6.0 is a roof. -/
theorem classify_storey_table (name : String) (elevation : Option ℚ) :
    (classify_storey_type name elevation = "basement" ↔ elevation.getD 0 < 0)
    ∧ (classify_storey_type name elevation = "ground" ↔
        (¬ elevation.getD 0 < 0 ∧
          (elevation.getD 0 = 0 ∨ hasSub "ground".data (lowerChars name) = true ∨
            hasSub "erdgeschoss".data (lowerChars name) = true ∨
            hasSub "rez-de-chaussÃ©e".data (lowerChars name) = true)))
    ∧ (classify_storey_type name elevation = "roof" ↔
        (¬ elevation.getD 0 < 0 ∧
          ¬ (elevation.getD 0 = 0 ∨ hasSub "ground".data (lowerChars name) = true ∨
            hasSub "erdgeschoss".data (lowerChars name) = true ∨
            hasSub "rez-de-chaussÃ©e".data (lowerChars name) = true) ∧
          (hasSub "roof".data (lowerChars name) = true ∨
            hasSub "dach".data (lowerChars name) = true ∨
            hasSub "toit".data (lowerChars name) = true)))
    ∧ (classify_storey_type name elevation = "upper" ↔
        (¬ elevation.getD 0 < 0 ∧
          ¬ (elevation.getD 0 = 0 ∨ hasSub "ground".data (lowerChars name) = true ∨
            hasSub "erdgeschoss".data (lowerChars name) = true ∨
            hasSub "rez-de-chaussÃ©e".data (lowerChars name) = true) ∧
          ¬ (hasSub "roof".data (lowerChars name) = true ∨
            hasSub "dach".data (lowerChars name) = true ∨
            hasSub "toit".data (lowerChars name) = true)))
    ∧ classify_storey_type "Dachgeschoss" (some 6) = "roof"
    ∧ (∀ n : String, classify_storey_type n (some (-3)) = "basement")
    ∧ classify_storey_type "Rez-de-chaussée" (some 2) = "upper" := by
  have hdach : classify_storey_type "Dachgeschoss" (some 6) = "roof" := by
    norm_num [classify_storey_type]
    decide
  have hbase : ∀ n : String, classify_storey_type n (some (-3)) = "basement" := by
    intro n
    norm_num [classify_storey_type]
  have hrdc : classify_storey_type "Rez-de-chaussée" (some 2) = "upper" := by
    norm_num [classify_storey_type]
    decide
  by_cases h1 : elevation.getD 0 < 0
  · have hc : classify_storey_type name elevation = "basement" := by
      simp [classify_storey_type, h1]
    rw [hc]
    exact ⟨⟨fun _ => h1, fun _ => rfl⟩,
      ⟨fun hx => absurd hx (by decide), fun hx => absurd h1 hx.1⟩,
      ⟨fun hx => absurd hx (by decide), fun hx => absurd h1 hx.1⟩,
      ⟨fun hx => absurd hx (by decide), fun hx => absurd h1 hx.1⟩,
      hdach, hbase, hrdc⟩
  · by_cases h2 : elevation.getD 0 = 0 ∨ hasSub "ground".data (lowerChars name) = true ∨
        hasSub "erdgeschoss".data (lowerChars name) = true ∨
        hasSub "rez-de-chaussÃ©e".data (lowerChars name) = true
    · have hc : classify_storey_type name elevation = "ground" := by
        simp only [classify_storey_type]
        rw [if_neg h1, if_pos h2]
      rw [hc]
      exact ⟨⟨fun hx => absurd hx (by decide), fun hlt => absurd hlt h1⟩,
        ⟨fun _ => ⟨h1, h2⟩, fun _ => rfl⟩,
        ⟨fun hx => absurd hx (by decide), fun hx => absurd h2 hx.2.1⟩,
        ⟨fun hx => absurd hx (by decide), fun hx => absurd h2 hx.2.1⟩,
        hdach, hbase, hrdc⟩
    · by_cases h3 : hasSub "roof".data (lowerChars name) = true ∨
          hasSub "dach".data (lowerChars name) = true ∨
          hasSub "toit".data (lowerChars name) = true
      · have hc : classify_storey_type name elevation = "roof" := by
          simp only [classify_storey_type]
          rw [if_neg h1, if_neg h2, if_pos h3]
        rw [hc]
        exact ⟨⟨fun hx => absurd hx (by decide), fun hlt => absurd hlt h1⟩,
          ⟨fun hx => absurd hx (by decide), fun hx => absurd hx.2 h2⟩,
          ⟨fun _ => ⟨h1, h2, h3⟩, fun _ => rfl⟩,
          ⟨fun hx => absurd hx (by decide), fun hx => absurd h3 hx.2.2⟩,
          hdach, hbase, hrdc⟩
      · have hc : classify_storey_type name elevation = "upper" := by
          simp only [classify_storey_type]
          rw [if_neg h1, if_neg h2, if_neg h3]
        rw [hc]
        exact ⟨⟨fun hx => absurd hx (by decide), fun hlt => absurd hlt h1⟩,
          ⟨fun hx => absurd hx (by decide), fun hx => absurd hx.2 h2⟩,
          ⟨fun hx => absurd hx (by decide), fun hx => absurd hx.2.2 h3⟩,
          ⟨fun _ => ⟨h1, h2, h3⟩, fun _ => rfl⟩,
          hdach, hbase, hrdc⟩

/-- C10: a storey whose Elevation attribute is absent is read as elevation
`0.0` by `classify_storey_type`, so it is always classified `ground`
whatever its name, and can never be `basement`, `roof` or `upper`. -/
theorem classify_storey_none_elevation (name : String) :
    classify_storey_type name none = "ground"
    ∧ classify_storey_type name none ≠ "basement"
    ∧ classify_storey_type name none ≠ "roof"
    ∧ classify_storey_type name none ≠ "upper" := by
  have hc : classify_storey_type name none = "ground" := by
    simp [classify_storey_type]
  exact ⟨hc, by rw [hc]; decide, by rw [hc]; decide, by rw [hc]; decide⟩

/-- C5: for every axis-aligned wall segment with start ≠ end,
`create_wall_frame` returns length equal to the Euclidean distance between
start and end (positive) and a rotation angle in {0, π/2, π, −π/2} radians
(that is {0°, 90°, 180°, −90°}): +π/2 for a vertical segment going up,
−π/2 going down, 0 for a horizontal segment going right, π otherwise. -/
theorem create_wall_frame_axis_aligned (sx sy ex ey : ℚ)
    (haxis : sx = ex ∨ sy = ey) (hne : ¬(sx = ex ∧ sy = ey)) :
    Real.sqrt ((create_wall_frame sx sy ex ey).lengthSq : ℝ)
      = Real.sqrt ((((ex - sx) ^ 2 + (ey - sy) ^ 2 : ℚ) : ℝ))
    ∧ 0 < Real.sqrt ((create_wall_frame sx sy ex ey).lengthSq : ℝ)
    ∧ (((create_wall_frame sx sy ex ey).anglePiCoeff : ℝ) * Real.pi = 0
        ∨ ((create_wall_frame sx sy ex ey).anglePiCoeff : ℝ) * Real.pi = Real.pi / 2
        ∨ ((create_wall_frame sx sy ex ey).anglePiCoeff : ℝ) * Real.pi = Real.pi
        ∨ ((create_wall_frame sx sy ex ey).anglePiCoeff : ℝ) * Real.pi = -(Real.pi / 2))
    ∧ (sx = ex → sy < ey →
        ((create_wall_frame sx sy ex ey).anglePiCoeff : ℝ) * Real.pi = Real.pi / 2)
    ∧ (sx = ex → ey < sy →
        ((create_wall_frame sx sy ex ey).anglePiCoeff : ℝ) * Real.pi = -(Real.pi / 2))
    ∧ (sy = ey → sx < ex →
        ((create_wall_frame sx sy ex ey).anglePiCoeff : ℝ) * Real.pi = 0)
    ∧ (sy = ey → ex < sx →
        ((create_wall_frame sx sy ex ey).anglePiCoeff : ℝ) * Real.pi = Real.pi) := by
  have hq : (0 : ℚ) < (ex - sx) ^ 2 + (ey - sy) ^ 2 := by
    rcases not_and_or.mp hne with h | h
    · have hz : ex - sx ≠ 0 := sub_ne_zero.mpr (fun hh => h hh.symm)
      have h2 : 0 < (ex - sx) ^ 2 :=
        (sq_nonneg _).lt_of_ne ((pow_ne_zero 2 hz).symm)
      linarith [sq_nonneg (ey - sy)]
    · have hz : ey - sy ≠ 0 := sub_ne_zero.mpr (fun hh => h hh.symm)
      have h2 : 0 < (ey - sy) ^ 2 :=
        (sq_nonneg _).lt_of_ne ((pow_ne_zero 2 hz).symm)
      linarith [sq_nonneg (ex - sx)]
  refine ⟨rfl, ?_, ?_, ?_, ?_, ?_, ?_⟩
  · exact Real.sqrt_pos.mpr (by exact_mod_cast hq)
  · by_cases h4 : sx = ex
    · by_cases h5 : sy < ey
      · right; left
        simp [create_wall_frame, h4, h5]
        ring
      · right; right; right
        simp [create_wall_frame, h4, h5]
        ring
    · by_cases h5 : sx < ex
      · left
        simp [create_wall_frame, h4, h5]
      · right; right; left
        simp [create_wall_frame, h4, h5]
  · intro h4 h5
    simp [create_wall_frame, h4, h5]
    ring
  · intro h4 h5
    have h5n : ¬ sy < ey := not_lt.mpr h5.le
    simp [create_wall_frame, h4, h5n]
    ring
  · intro h4 h5
    have hx : ¬ sx = ex := ne_of_lt h5
    simp [create_wall_frame, hx, h5]
  · intro h4 h5
    have hx : ¬ sx = ex := (ne_of_lt h5).symm
    have h5n : ¬ sx < ex := not_lt.mpr h5.le
    simp [create_wall_frame, hx, h5n]

/-- C5 witness, Scenario A geometry: the wall from (0,0) to (8,0) is
axis-aligned and non-degenerate, its length is positive and its rotation
angle is 0. -/
theorem create_wall_frame_axis_aligned_witness :
    ((0 : ℚ) = 8 ∨ (0 : ℚ) = 0)
    ∧ 0 < Real.sqrt ((create_wall_frame 0 0 8 0).lengthSq : ℝ)
    ∧ ((create_wall_frame 0 0 8 0).anglePiCoeff : ℝ) * Real.pi = 0 := by
  have h := create_wall_frame_axis_aligned 0 0 8 0 (Or.inr rfl) (by norm_num)
  exact ⟨Or.inr rfl, h.2.1, h.2.2.2.2.2.1 rfl (by norm_num)⟩

/-- C6 counterexample: at start = end = (0,0) the source computes a frame
— length 0 and angle −π/2 (the vertical branch, `end_y > start_y` false) —
instead of failing with a DegenerateGeometry error: no degeneracy check
exists in `create_wall_with_proper_joins`. -/
theorem create_wall_frame_degenerate_cex :
    create_wall_frame 0 0 0 0
      = { centerX := 0, centerY := 0, anglePiCoeff := -(1 / 2), lengthSq := 0 }
    ∧ Real.sqrt ((create_wall_frame 0 0 0 0).lengthSq : ℝ) = 0
    ∧ ((create_wall_frame 0 0 0 0).anglePiCoeff : ℝ) * Real.pi = -(Real.pi / 2) := by
  refine ⟨by norm_num [create_wall_frame], ?_, ?_⟩
  · norm_num [create_wall_frame]
  · norm_num [create_wall_frame]
    ring

/-- C6 amended: the source never rejects a degenerate segment — for every
start = end it produces a wall frame with length 0 and rotation angle −π/2
(the vertical branch is taken since `start_x == end_x`, and
`end_y > start_y` is false). -/
theorem create_wall_frame_degenerate (x y : ℚ) :
    (create_wall_frame x y x y).lengthSq = 0
    ∧ Real.sqrt ((create_wall_frame x y x y).lengthSq : ℝ) = 0
    ∧ ((create_wall_frame x y x y).anglePiCoeff : ℝ) * Real.pi = -(Real.pi / 2) := by
  have h1 : (create_wall_frame x y x y).lengthSq = 0 := by
    simp [create_wall_frame]
  have h2 : (create_wall_frame x y x y).anglePiCoeff = -(1 / 2) := by
    simp [create_wall_frame]
  refine ⟨h1, by rw [h1]; norm_num, by rw [h2]; push_cast; ring⟩

/-- C4: for every opening cut by the coordinator the plan width is the
penetrator's width + 0.02, the plan depth-clearance is the host wall's
thickness + 0.05, and the extrusion height is the penetrator's height
+ 0.01; Scenario B: a window of width 1.5 in a wall of thickness 0.2
yields plan width 1.52 and depth-clearance 0.25. -/
theorem mkOpening_dimensions (pen : PenetratorSize) (t : ℚ) :
    (mkOpening pen t).planWidth = pen.width + 0.02
    ∧ (mkOpening pen t).planDepth = t + 0.05
    ∧ (mkOpening pen t).extrusionHeight = pen.height + 0.01
    ∧ (mkOpening ⟨1.5, 1.2⟩ 0.2).planWidth = 1.52
    ∧ (mkOpening ⟨1.5, 1.2⟩ 0.2).planDepth = 0.25 :=
  ⟨rfl, rfl, rfl, by norm_num [mkOpening], by norm_num [mkOpening]⟩

/-- C7 counterexample: `cut_opening` applied with a non-penetrable host
(a window) and a slot of negative width still creates the Opening, the
Voids relation and the Fills relation — the source has no host-kind or
slot-size validation and no error path. -/
theorem cut_opening_no_validation_cex :
    (cut_opening ⟨[], [], [], 0⟩ ElemKind.window 5 7 ⟨-1, 2⟩ 0.2).openings
      = [(0, ⟨-0.98, 0.25, 2.01⟩)]
    ∧ (cut_opening ⟨[], [], [], 0⟩ ElemKind.window 5 7 ⟨-1, 2⟩ 0.2).voids
      = [(5, 0)]
    ∧ (cut_opening ⟨[], [], [], 0⟩ ElemKind.window 5 7 ⟨-1, 2⟩ 0.2).fills
      = [(0, 7)] := by
  refine ⟨?_, rfl, rfl⟩
  simp only [cut_opening, mkOpening, List.nil_append, List.cons.injEq,
    Prod.mk.injEq, OpeningElem.mk.injEq, and_true]
  norm_num

/-- C7 amended: opening creation in the source is unconditional — for any
host kind, any slot size (positive or not) and any model state it appends
exactly one Opening, one Voids relation and one Fills relation, and no
error path exists. -/
theorem cut_opening_unconditional (st : ModelState) (hk : ElemKind)
    (h p : Nat) (sz : PenetratorSize) (t : ℚ) :
    (cut_opening st hk h p sz t).openings
      = st.openings ++ [(st.nextId, mkOpening sz t)]
    ∧ (cut_opening st hk h p sz t).voids = st.voids ++ [(h, st.nextId)]
    ∧ (cut_opening st hk h p sz t).fills = st.fills ++ [(st.nextId, p)]
    ∧ (cut_opening st hk h p sz t).nextId = st.nextId + 1 :=
  ⟨rfl, rfl, rfl, rfl⟩

/-! ### Lemmas on the opening/fill loop -/

theorem run_cut_openings_voids (st : ModelState) (cfgs : List PenConfig) :
    (run_cut_openings st cfgs).voids
      = st.voids ++ (openingRels st.nextId cfgs).1 := by
  induction cfgs generalizing st with
  | nil => simp [run_cut_openings, openingRels]
  | cons c rest ih =>
    simp [run_cut_openings, openingRels, cut_opening, ih]

theorem run_cut_openings_fills (st : ModelState) (cfgs : List PenConfig) :
    (run_cut_openings st cfgs).fills
      = st.fills ++ (openingRels st.nextId cfgs).2 := by
  induction cfgs generalizing st with
  | nil => simp [run_cut_openings, openingRels]
  | cons c rest ih =>
    simp [run_cut_openings, openingRels, cut_opening, ih]

theorem openingRels_voids_id_ge {k : Nat} {cfgs : List PenConfig} {h o : Nat}
    (hmem : (h, o) ∈ (openingRels k cfgs).1) : k ≤ o := by
  induction cfgs generalizing k with
  | nil => simp [openingRels] at hmem
  | cons c rest ih =>
    simp only [openingRels, List.mem_cons, Prod.mk.injEq] at hmem
    rcases hmem with ⟨-, rfl⟩ | hmem
    · omega
    · exact Nat.le_of_succ_le (ih hmem)

theorem openingRels_fills_id_ge {k : Nat} {cfgs : List PenConfig} {o p : Nat}
    (hmem : (o, p) ∈ (openingRels k cfgs).2) : k ≤ o := by
  induction cfgs generalizing k with
  | nil => simp [openingRels] at hmem
  | cons c rest ih =>
    simp only [openingRels, List.mem_cons, Prod.mk.injEq] at hmem
    rcases hmem with ⟨rfl, -⟩ | hmem
    · omega
    · exact Nat.le_of_succ_le (ih hmem)

theorem openingRels_voids_nodup (k : Nat) (cfgs : List PenConfig) :
    ((openingRels k cfgs).1.map Prod.snd).Nodup := by
  induction cfgs generalizing k with
  | nil => simp [openingRels]
  | cons c rest ih =>
    simp only [openingRels, List.map_cons, List.nodup_cons]
    refine ⟨?_, ih (k + 1)⟩
    intro hmem
    obtain ⟨⟨h, o⟩, hpair, ho⟩ := List.mem_map.mp hmem
    have := openingRels_voids_id_ge hpair
    simp only at ho
    omega

theorem openingRels_fills_nodup (k : Nat) (cfgs : List PenConfig) :
    ((openingRels k cfgs).2.map Prod.fst).Nodup := by
  induction cfgs generalizing k with
  | nil => simp [openingRels]
  | cons c rest ih =>
    simp only [openingRels, List.map_cons, List.nodup_cons]
    refine ⟨?_, ih (k + 1)⟩
    intro hmem
    obtain ⟨⟨o, p⟩, hpair, ho⟩ := List.mem_map.mp hmem
    have := openingRels_fills_id_ge hpair
    simp only at ho
    omega

theorem openingRels_pair (k : Nat) (cfgs : List PenConfig) (o : Nat) :
    (∃ h, (h, o) ∈ (openingRels k cfgs).1)
      ↔ (∃ p, (o, p) ∈ (openingRels k cfgs).2) := by
  induction cfgs generalizing k with
  | nil => simp [openingRels]
  | cons c rest ih =>
    simp only [openingRels, List.mem_cons, Prod.mk.injEq]
    constructor
    · rintro ⟨h, ⟨-, rfl⟩ | hmem⟩
      · exact ⟨c.penetrator, Or.inl ⟨rfl, rfl⟩⟩
      · obtain ⟨p, hp⟩ := (ih (k + 1)).1 ⟨h, hmem⟩
        exact ⟨p, Or.inr hp⟩
    · rintro ⟨p, ⟨rfl, -⟩ | hmem⟩
      · exact ⟨c.host, Or.inl ⟨rfl, rfl⟩⟩
      · obtain ⟨h, hh⟩ := (ih (k + 1)).2 ⟨p, hmem⟩
        exact ⟨h, Or.inr hh⟩

theorem openingRels_resolve {k : Nat} {cfgs : List PenConfig} {h o p : Nat}
    (hv : (h, o) ∈ (openingRels k cfgs).1)
    (hf : (o, p) ∈ (openingRels k cfgs).2) :
    ∃ c ∈ cfgs, c.host = h ∧ c.penetrator = p := by
  induction cfgs generalizing k with
  | nil => simp [openingRels] at hv
  | cons c rest ih =>
    simp only [openingRels, List.mem_cons, Prod.mk.injEq] at hv hf
    rcases hv with ⟨rfl, rfl⟩ | hv
    · rcases hf with ⟨-, rfl⟩ | hf
      · exact ⟨c, List.mem_cons_self c rest, rfl, rfl⟩
      · have := openingRels_fills_id_ge hf
        omega
    · rcases hf with ⟨rfl, -⟩ | hf
      · have := openingRels_voids_id_ge hv
        omega
      · obtain ⟨d, hd, hdh, hdp⟩ := ih hv hf
        exact ⟨d, List.mem_cons_of_mem c hd, hdh, hdp⟩

theorem openingRels_voids_length (k : Nat) (cfgs : List PenConfig) :
    (openingRels k cfgs).1.length = cfgs.length := by
  induction cfgs generalizing k with
  | nil => simp [openingRels]
  | cons c rest ih => simp [openingRels, ih]

theorem openingRels_fills_length (k : Nat) (cfgs : List PenConfig) :
    (openingRels k cfgs).2.length = cfgs.length := by
  induction cfgs generalizing k with
  | nil => simp [openingRels]
  | cons c rest ih => simp [openingRels, ih]

theorem filter_length_le_one_of_nodup_map {α β : Type} [BEq β] [LawfulBEq β]
    (f : α → β) (l : List α) (hn : (l.map f).Nodup) (b : β) :
    (l.filter (fun a => f a == b)).length ≤ 1 := by
  induction l with
  | nil => simp
  | cons a rest ih =>
    simp only [List.map_cons, List.nodup_cons] at hn
    by_cases hab : f a == b
    · have hb : f a = b := eq_of_beq hab
      have hnil : rest.filter (fun x => f x == b) = [] := by
        rw [List.filter_eq_nil_iff]
        intro x hx hxb
        exact hn.1 (hb ▸ (eq_of_beq hxb) ▸ List.mem_map_of_mem f hx)
      simp [List.filter_cons, hab, hnil]
    · simp only [List.filter_cons, hab, Bool.false_eq_true, if_false]
      exact ih hn.2

/-- C3: in the opening/fill loop every created Opening participates in
exactly one Voids and exactly one Fills relation, both referencing the
same Opening; the Voids-host and Fills-penetrator resolve back to the
configuration's original host and penetrator; and no Opening is shared
between two hosts or two penetrators. -/
theorem opening_relations_one_to_one (n : Nat) (cfgs : List PenConfig) :
    ((run_cut_openings ⟨[], [], [], n⟩ cfgs).voids.map Prod.snd).Nodup
    ∧ ((run_cut_openings ⟨[], [], [], n⟩ cfgs).fills.map Prod.fst).Nodup
    ∧ (run_cut_openings ⟨[], [], [], n⟩ cfgs).voids.length = cfgs.length
    ∧ (run_cut_openings ⟨[], [], [], n⟩ cfgs).fills.length = cfgs.length
    ∧ (∀ o : Nat,
        (∃ h, (h, o) ∈ (run_cut_openings ⟨[], [], [], n⟩ cfgs).voids)
          ↔ (∃ p, (o, p) ∈ (run_cut_openings ⟨[], [], [], n⟩ cfgs).fills))
    ∧ (∀ h o : Nat, (h, o) ∈ (run_cut_openings ⟨[], [], [], n⟩ cfgs).voids →
        ((run_cut_openings ⟨[], [], [], n⟩ cfgs).voids.filter
          (fun v => v.2 == o)).length = 1)
    ∧ (∀ o p : Nat, (o, p) ∈ (run_cut_openings ⟨[], [], [], n⟩ cfgs).fills →
        ((run_cut_openings ⟨[], [], [], n⟩ cfgs).fills.filter
          (fun v => v.1 == o)).length = 1)
    ∧ (∀ h o p : Nat, (h, o) ∈ (run_cut_openings ⟨[], [], [], n⟩ cfgs).voids →
        (o, p) ∈ (run_cut_openings ⟨[], [], [], n⟩ cfgs).fills →
        ∃ c ∈ cfgs, c.host = h ∧ c.penetrator = p) := by
  have hv : (run_cut_openings ⟨[], [], [], n⟩ cfgs).voids
      = (openingRels n cfgs).1 := by
    rw [run_cut_openings_voids]
    simp
  have hf : (run_cut_openings ⟨[], [], [], n⟩ cfgs).fills
      = (openingRels n cfgs).2 := by
    rw [run_cut_openings_fills]
    simp
  rw [hv, hf]
  refine ⟨openingRels_voids_nodup n cfgs, openingRels_fills_nodup n cfgs,
    openingRels_voids_length n cfgs, openingRels_fills_length n cfgs,
    fun o => openingRels_pair n cfgs o, ?_, ?_,
    fun h o p hvm hfm => openingRels_resolve hvm hfm⟩
  · intro h o hmem
    have hle := filter_length_le_one_of_nodup_map Prod.snd
      (openingRels n cfgs).1 (openingRels_voids_nodup n cfgs) o
    have hmemf : (h, o) ∈ (openingRels n cfgs).1.filter (fun v => v.2 == o) :=
      List.mem_filter.mpr ⟨hmem, by simp⟩
    have hpos : 0 < ((openingRels n cfgs).1.filter (fun v => v.2 == o)).length :=
      List.length_pos.mpr (List.ne_nil_of_mem hmemf)
    omega
  · intro o p hmem
    have hle := filter_length_le_one_of_nodup_map Prod.fst
      (openingRels n cfgs).2 (openingRels_fills_nodup n cfgs) o
    have hmemf : (o, p) ∈ (openingRels n cfgs).2.filter (fun v => v.1 == o) :=
      List.mem_filter.mpr ⟨hmem, by simp⟩
    have hpos : 0 < ((openingRels n cfgs).2.filter (fun v => v.1 == o)).length :=
      List.length_pos.mpr (List.ne_nil_of_mem hmemf)
    omega

end LearnIfc
